import Mathlib

set_option maxHeartbeats 1000000

/-!
Verification of the message-analysis engine (`scripts/explore_messages.py`).

The Python source is shallowly embedded below.  Message records carry the
five fields of the data model; the `id` field is kept as an `Option` because
the source reads it with `m.get("id")` (default `None`) while the other four
fields are read with a `""` default.  Instants parsed from timestamp strings
are modelled as integers (epoch seconds); the parse functions themselves
(`datetime.fromisoformat`, `dateutil`), the regular-expression engines and
the Unicode accent-stripping table are taken as parameters of the embedding,
since their behaviour is external to the algorithmic content under analysis.
-/

namespace Explore

/-- A message record: `id` (may be absent, read with `m.get("id")`),
and the four string fields read with a `""` default. -/
structure Msg where
  id : Option String
  user_id : String
  user_name : String
  timestamp : String
  message : String
deriving DecidableEq

/-- Digit extraction used by `luhn_check`: `[int(c) for c in num if c.isdigit()]`. -/
def digitsOf (s : String) : List Nat :=
  (s.toList.filter Char.isDigit).map (fun c => c.toNat - 48)

/-- The checksum of the Luhn algorithm as implemented in the source:
iterate the digit list left to right, double the digit at every index whose
parity equals `(len - 2) % 2`, subtract 9 from doubled values exceeding 9,
and sum. -/
def luhnChecksum (digits : List Nat) : Nat :=
  let par := (digits.length - 2) % 2
  (digits.enum.map (fun p =>
    if p.1 % 2 = par then
      let d2 := 2 * p.2
      if 9 < d2 then d2 - 9 else d2
    else p.2)).sum

/-- `luhn_check` from the source: strip to digits, require at least 13 digits,
then accept exactly when the checksum is a multiple of 10. -/
def luhn_check (num : String) : Bool :=
  let digits := digitsOf num
  if digits.length < 13 then false
  else luhnChecksum digits % 10 == 0

/-- Increment the character at index `i` of `s` by one code point
(used to state the "increment one interior digit" property). -/
def bumpAt (s : String) (i : Nat) : String :=
  ⟨s.toList.enum.map (fun p => if p.1 = i then Char.ofNat (p.2.toNat + 1) else p.2)⟩

/-- C3: `luhn_check` returns `false` whenever the digit-only form has fewer
than 13 digits, and otherwise returns `true` exactly when the checksum
(doubling at every index of parity `(len - 2) % 2`, subtracting 9 from
doubled values over 9, summing) is a multiple of 10; `"4111111111111111"`
passes, and incrementing any one of its 14 interior digits by 1 fails. -/
theorem luhn_check_correct :
    (∀ s : String, luhn_check s = true ↔
        13 ≤ (digitsOf s).length ∧ luhnChecksum (digitsOf s) % 10 = 0)
    ∧ luhn_check "4111111111111111" = true
    ∧ ((List.range 14).all
        (fun k => !luhn_check (bumpAt "4111111111111111" (k + 1)))) = true := by
  refine ⟨fun s => ?_, by decide, by decide⟩
  unfold luhn_check
  by_cases h : (digitsOf s).length < 13
  · simp [h]
  · simp [h, beq_iff_eq]
    omega

/-! ## Grouper (`group_by_user`) -/

/-- Keys of a Python dict built by repeated insertion: first-occurrence order,
no duplicates. -/
def uniqueKeys (l : List String) : List String :=
  l.foldl (fun acc u => if u ∈ acc then acc else acc ++ [u]) []

/-- Lexicographic (code-point) order on character lists: the order Python
uses to compare strings. -/
def listLe : List Char → List Char → Bool
  | [], _ => true
  | _ :: _, [] => false
  | c :: cs, d :: ds =>
    if c.toNat < d.toNat then true
    else if d.toNat < c.toNat then false
    else listLe cs ds

/-- Lexicographic string comparison, `a <= b` of Python. -/
def strLe (a b : String) : Bool := listLe a.toList b.toList

theorem listLe_refl : ∀ l : List Char, listLe l l = true := by
  intro l
  induction l with
  | nil => rfl
  | cons c cs ih =>
    show (if c.toNat < c.toNat then true else if c.toNat < c.toNat then false
      else listLe cs cs) = true
    rw [if_neg (by omega), if_neg (by omega)]
    exact ih

theorem strLe_refl (s : String) : strLe s s = true := listLe_refl s.toList

instance : DecidableRel (fun a b : Msg => strLe a.timestamp b.timestamp = true) :=
  fun _ _ => inferInstanceAs (Decidable (_ = true))

/-- One user's sorted group: the corpus filtered to that `user_id`, stably
sorted ascending by the raw timestamp string. -/
def groupOf (msgs : List Msg) (uid : String) : List Msg :=
  List.insertionSort (fun a b => strLe a.timestamp b.timestamp = true)
    (msgs.filter (fun m => decide (m.user_id = uid)))

/-- `group_by_user` from the source: partition by `user_id` (keys in
first-appearance order, empty `user_id` forms its own group) and sort each
group ascending by the raw `timestamp` string with a stable sort. -/
def group_by_user (msgs : List Msg) : List (String × List Msg) :=
  (uniqueKeys (msgs.map Msg.user_id)).map (fun u => (u, groupOf msgs u))

/-! ## Timestamp anomalies: the out-of-order walk (C2)

The walk of lines 136-154 realises its ordering test by comparing each
parsed instant with the *previous* parsed instant (`last_dt`); the spec
phrases the same test as a comparison with the *maximum* parsed instant seen
so far.  Instants are modelled as integers; the ISO-8601 parse is a
parameter `tsParse` (a failing parse is `none` and is skipped, as in the
source's `except: continue`). -/

/-- The source's walk over one user group: skip unparsable timestamps, flag
if some parsed instant is strictly below the previous parsed instant. -/
def oooWalk (tsParse : String → Option Int) : List Msg → Option Int → Bool
  | [], _ => false
  | m :: rest, last =>
    match tsParse m.timestamp with
    | none => oooWalk tsParse rest last
    | some dt =>
      (match last with
       | some l => decide (dt < l)
       | none => false) || oooWalk tsParse rest (some dt)

/-- `out_of_order_users` of the source: the number of user groups flagged by
the walk. -/
def out_of_order_users (tsParse : String → Option Int) (msgs : List Msg) : Nat :=
  ((group_by_user msgs).filter (fun g => oooWalk tsParse g.2 none)).length

/-- The walk as the spec words it: skip unparsable timestamps, flag if some
parsed instant is strictly earlier than the maximum parsed instant seen so
far in the walk. -/
def oooMaxWalk (tsParse : String → Option Int) : List Msg → Option Int → Bool
  | [], _ => false
  | m :: rest, mx =>
    match tsParse m.timestamp with
    | none => oooMaxWalk tsParse rest mx
    | some dt =>
      (match mx with
       | some l => decide (dt < l)
       | none => false) ||
      oooMaxWalk tsParse rest (some (match mx with | some l => max l dt | none => dt))

theorem oooWalk_some_eq_max (tsParse : String → Option Int) :
    ∀ (l : List Msg) (a : Int),
      oooWalk tsParse l (some a) = oooMaxWalk tsParse l (some a) := by
  intro l
  induction l with
  | nil => intro a; rfl
  | cons m rest ih =>
    intro a
    by_cases hp : ∃ dt, tsParse m.timestamp = some dt
    · obtain ⟨dt, hdt⟩ := hp
      by_cases hlt : dt < a
      · simp [oooWalk, oooMaxWalk, hdt, hlt]
      · have hmax : max a dt = dt := max_eq_right (by omega)
        simp [oooWalk, oooMaxWalk, hdt, hlt, hmax, ih dt]
    · have hn : tsParse m.timestamp = none := by
        cases h : tsParse m.timestamp with
        | none => rfl
        | some dt => exact absurd ⟨dt, h⟩ hp
      simp [oooWalk, oooMaxWalk, hn, ih a]

theorem oooWalk_none_eq_max (tsParse : String → Option Int) :
    ∀ l : List Msg, oooWalk tsParse l none = oooMaxWalk tsParse l none := by
  intro l
  induction l with
  | nil => rfl
  | cons m rest ih =>
    cases h : tsParse m.timestamp with
    | none => simp [oooWalk, oooMaxWalk, h, ih]
    | some dt => simp [oooWalk, oooMaxWalk, h, oooWalk_some_eq_max]

/-- C2: for every corpus and every parse function, a user group (sorted
ascending by raw timestamp string) is counted among the out-of-order users
exactly when, walking the group in that order and skipping unparsable
timestamps, some parsed instant is strictly earlier than the maximum parsed
instant seen so far: the source's previous-instant test flags exactly the
groups the spec's maximum-so-far test flags, and the counts agree. -/
theorem out_of_order_users_spec (tsParse : String → Option Int) (msgs : List Msg) :
    (∀ arr : List Msg, oooWalk tsParse arr none = oooMaxWalk tsParse arr none)
    ∧ out_of_order_users tsParse msgs
      = ((group_by_user msgs).filter (fun g => oooMaxWalk tsParse g.2 none)).length := by
  refine ⟨oooWalk_none_eq_max tsParse, ?_⟩
  unfold out_of_order_users
  congr 1
  exact List.filter_congr (fun g _ => by rw [oooWalk_none_eq_max])

/-! ## Normalizer

`norm_text` (lines 157-158) lower-cases and collapses whitespace; `_norm`
(lines 21-23) accent-strips, lower-cases, replaces every character that is
not alphanumeric-or-whitespace by a space and collapses whitespace.
Characters are modelled at the code-point level: `Char.toLower` coincides
with Python `str.lower` on ASCII (and is the identity elsewhere in the
model), `pyIsSpace`/`pyIsAlnum` are the ASCII whitespace/alphanumeric
classes of `str.split`/`str.isalnum`, and the Unicode accent-stripping
`_strip_accents` is a parameter constrained to produce ASCII and to fix
ASCII-only strings (both true of NFKD-decompose-then-ASCII-encode). -/

/-- ASCII whitespace, the characters `str.split()` splits on. -/
def pyIsSpace (c : Char) : Bool :=
  c.toNat = 32 || c.toNat = 9 || c.toNat = 10 || c.toNat = 11 || c.toNat = 12 || c.toNat = 13

/-- ASCII alphanumeric, the `str.isalnum` class on ASCII text. -/
def pyIsAlnum (c : Char) : Bool :=
  (48 ≤ c.toNat && c.toNat ≤ 57) || (65 ≤ c.toNat && c.toNat ≤ 90)
    || (97 ≤ c.toNat && c.toNat ≤ 122)

/-- The per-character replacement of `_norm`:
`ch if (ch.isalnum() or ch.isspace()) else " "`. -/
def keepAlnumSpace (c : Char) : Char :=
  if pyIsAlnum c || pyIsSpace c then c else ' '

theorem char_toNat_ofNat {n : Nat} (h : n < 55296) : (Char.ofNat n).toNat = n := by
  have hv : n.isValidChar := Or.inl h
  simp [Char.ofNat, hv, Char.ofNatAux, Char.toNat, UInt32.toNat, BitVec.toNat_ofNatLt]

theorem toLower_eq_self (c : Char) (h : ¬(65 ≤ c.toNat ∧ c.toNat ≤ 90)) :
    c.toLower = c := by
  simp only [Char.toLower]
  exact if_neg (fun hc => h ⟨hc.1, hc.2⟩)

theorem toLower_toNat (c : Char) :
    c.toLower.toNat = if 65 ≤ c.toNat ∧ c.toNat ≤ 90 then c.toNat + 32 else c.toNat := by
  by_cases h : 65 ≤ c.toNat ∧ c.toNat ≤ 90
  · rw [if_pos h]
    simp only [Char.toLower]
    rw [if_pos ⟨h.1, h.2⟩]
    exact char_toNat_ofNat (by omega)
  · rw [if_neg h, toLower_eq_self c h]

theorem toLower_toLower (c : Char) : c.toLower.toLower = c.toLower := by
  by_cases h : 65 ≤ c.toNat ∧ c.toNat ≤ 90
  · refine toLower_eq_self _ ?_
    rw [toLower_toNat, if_pos h]
    omega
  · rw [toLower_eq_self c h, toLower_eq_self c h]

theorem toNat_lt_128_toLower (c : Char) (h : c.toNat < 128) : c.toLower.toNat < 128 := by
  rw [toLower_toNat]
  split <;> omega

theorem keep_eq_cases (c : Char) : keepAlnumSpace c = c ∨ keepAlnumSpace c = ' ' := by
  unfold keepAlnumSpace
  split
  · exact Or.inl rfl
  · exact Or.inr rfl

theorem keep_space : keepAlnumSpace ' ' = ' ' := by decide

theorem keep_keep (c : Char) : keepAlnumSpace (keepAlnumSpace c) = keepAlnumSpace c := by
  rcases keep_eq_cases c with h | h <;> rw [h]
  · exact h
  · exact keep_space

theorem toLower_keep_toLower (c : Char) :
    (keepAlnumSpace c.toLower).toLower = keepAlnumSpace c.toLower := by
  rcases keep_eq_cases c.toLower with h | h <;> rw [h]
  · exact toLower_toLower c
  · decide

theorem toNat_keep_lt_128 (c : Char) (h : c.toNat < 128) : (keepAlnumSpace c).toNat < 128 := by
  rcases keep_eq_cases c with h2 | h2 <;> rw [h2]
  · exact h
  · decide

/-- `str.split()` on a character list, token under construction in `acc`. -/
def splitWsAux : List Char → List Char → List (List Char)
  | [], acc => if acc.isEmpty then [] else [acc]
  | c :: cs, acc =>
    if pyIsSpace c then
      if acc.isEmpty then splitWsAux cs [] else acc :: splitWsAux cs []
    else splitWsAux cs (acc ++ [c])

/-- `str.split()`: maximal runs of non-whitespace characters. -/
def splitWs (l : List Char) : List (List Char) := splitWsAux l []

/-- `" ".join(tokens)`. -/
def joinSp : List (List Char) → List Char
  | [] => []
  | [t] => t
  | t :: ts => t ++ ' ' :: joinSp ts

theorem splitWsAux_good : ∀ (l acc : List Char),
    (∀ c ∈ acc, pyIsSpace c = false) →
    ∀ t ∈ splitWsAux l acc, t ≠ [] ∧ ∀ c ∈ t, pyIsSpace c = false := by
  intro l
  induction l with
  | nil =>
    intro acc hacc t ht
    unfold splitWsAux at ht
    split at ht
    · simp at ht
    · next h =>
      simp at ht
      subst ht
      exact ⟨by simpa using h, hacc⟩
  | cons c cs ih =>
    intro acc hacc t ht
    unfold splitWsAux at ht
    split at ht
    · split at ht
      · exact ih [] (by simp) t ht
      · next h =>
        rcases List.mem_cons.mp ht with h1 | h1
        · subst h1
          exact ⟨by simpa using h, hacc⟩
        · exact ih [] (by simp) t h1
    · next hsp =>
      refine ih (acc ++ [c]) ?_ t ht
      intro x hx
      rcases List.mem_append.mp hx with h1 | h1
      · exact hacc x h1
      · simp at h1
        subst h1
        simpa using hsp

theorem splitWsAux_sub : ∀ (l acc : List Char),
    ∀ t ∈ splitWsAux l acc, ∀ c ∈ t, c ∈ acc ∨ c ∈ l := by
  intro l
  induction l with
  | nil =>
    intro acc t ht c hc
    unfold splitWsAux at ht
    split at ht
    · simp at ht
    · simp at ht
      subst ht
      exact Or.inl hc
  | cons d ds ih =>
    intro acc t ht c hc
    unfold splitWsAux at ht
    split at ht
    · split at ht
      · rcases ih [] t ht c hc with h | h
        · simp at h
        · exact Or.inr (List.mem_cons_of_mem _ h)
      · rcases List.mem_cons.mp ht with h1 | h1
        · subst h1
          exact Or.inl hc
        · rcases ih [] t h1 c hc with h | h
          · simp at h
          · exact Or.inr (List.mem_cons_of_mem _ h)
    · rcases ih (acc ++ [d]) t ht c hc with h | h
      · rcases List.mem_append.mp h with h2 | h2
        · exact Or.inl h2
        · simp at h2
          subst h2
          exact Or.inr (List.mem_cons_self _ _)
      · exact Or.inr (List.mem_cons_of_mem _ h)

theorem splitWsAux_append_tok : ∀ (t l acc : List Char),
    (∀ c ∈ t, pyIsSpace c = false) →
    splitWsAux (t ++ l) acc = splitWsAux l (acc ++ t) := by
  intro t
  induction t with
  | nil => intro l acc _; simp
  | cons c cs ih =>
    intro l acc h
    have hc : pyIsSpace c = false := h c (List.mem_cons_self _ _)
    rw [List.cons_append]
    rw [show splitWsAux (c :: (cs ++ l)) acc = splitWsAux (cs ++ l) (acc ++ [c]) by
      simp [splitWsAux, hc]]
    rw [ih l (acc ++ [c]) (fun x hx => h x (List.mem_cons_of_mem _ hx))]
    simp

theorem splitWs_joinSp : ∀ toks : List (List Char),
    (∀ t ∈ toks, t ≠ [] ∧ ∀ c ∈ t, pyIsSpace c = false) →
    splitWs (joinSp toks) = toks := by
  intro toks
  induction toks with
  | nil => intro _; rfl
  | cons t ts ih =>
    intro h
    obtain ⟨htne, htc⟩ := h t (List.mem_cons_self _ _)
    cases ts with
    | nil =>
      show splitWs (joinSp [t]) = [t]
      have hj : joinSp [t] = t := rfl
      rw [hj]
      show splitWsAux t [] = [t]
      have h1 : splitWsAux (t ++ []) [] = splitWsAux [] ([] ++ t) :=
        splitWsAux_append_tok t [] [] htc
      simp only [List.append_nil, List.nil_append] at h1
      rw [h1]
      simp [splitWsAux, htne]
    | cons t' ts' =>
      have hj : joinSp (t :: t' :: ts') = t ++ ' ' :: joinSp (t' :: ts') := rfl
      unfold splitWs
      rw [hj, splitWsAux_append_tok t _ [] htc]
      simp only [List.nil_append]
      rw [show splitWsAux (' ' :: joinSp (t' :: ts')) t
            = t :: splitWsAux (joinSp (t' :: ts')) [] by
        simp [splitWsAux, pyIsSpace, htne]]
      have := ih (fun u hu => h u (List.mem_cons_of_mem _ hu))
      unfold splitWs at this
      rw [this]

theorem mem_joinSp : ∀ (toks : List (List Char)) (c : Char),
    c ∈ joinSp toks → c = ' ' ∨ ∃ t ∈ toks, c ∈ t := by
  intro toks
  induction toks with
  | nil => intro c hc; simp [joinSp] at hc
  | cons t ts ih =>
    intro c hc
    cases ts with
    | nil =>
      exact Or.inr ⟨t, List.mem_cons_self _ _, hc⟩
    | cons t' ts' =>
      rcases List.mem_append.mp hc with h | h
      · exact Or.inr ⟨t, List.mem_cons_self _ _, h⟩
      · rcases List.mem_cons.mp h with h1 | h1
        · exact Or.inl h1
        · rcases ih c h1 with h2 | ⟨u, hu, hcu⟩
          · exact Or.inl h2
          · exact Or.inr ⟨u, List.mem_cons_of_mem _ hu, hcu⟩

theorem map_fix {α : Type} (f : α → α) :
    ∀ l : List α, (∀ x ∈ l, f x = x) → l.map f = l := by
  intro l
  induction l with
  | nil => intro _; rfl
  | cons x xs ih =>
    intro h
    simp only [List.map_cons, h x (List.mem_cons_self _ _),
      ih (fun y hy => h y (List.mem_cons_of_mem _ hy))]

/-- `norm_text` of the source (used by the duplicate detectors):
`" ".join((s or "").lower().split())`. -/
def norm_text (s : String) : String :=
  ⟨joinSp (splitWs (s.toList.map Char.toLower))⟩

/-- `_norm` of the source (used for name keys and top words):
accent-strip, lower-case, replace non-alphanumeric-non-whitespace characters
by a space, collapse whitespace.  The accent-stripping `_strip_accents` is
the parameter `strip`. -/
def _norm (strip : String → String) (s : String) : String :=
  ⟨joinSp (splitWs (((strip s).toList.map Char.toLower).map keepAlnumSpace))⟩

theorem norm_text_idem (s : String) : norm_text (norm_text s) = norm_text s := by
  have hgood : ∀ t ∈ splitWs (s.toList.map Char.toLower),
      t ≠ [] ∧ ∀ c ∈ t, pyIsSpace c = false :=
    splitWsAux_good (s.toList.map Char.toLower) [] (by simp)
  have hfix : ∀ c ∈ joinSp (splitWs (s.toList.map Char.toLower)), Char.toLower c = c := by
    intro c hc
    rcases mem_joinSp _ c hc with h | ⟨t, ht, hct⟩
    · subst h; decide
    · rcases splitWsAux_sub _ [] t ht c hct with h | h
      · simp at h
      · rcases List.mem_map.mp h with ⟨c0, _, rfl⟩
        exact toLower_toLower c0
  show (⟨joinSp (splitWs ((joinSp (splitWs (s.toList.map Char.toLower))).map
          Char.toLower))⟩ : String) = ⟨joinSp (splitWs (s.toList.map Char.toLower))⟩
  rw [map_fix _ _ hfix, splitWs_joinSp _ hgood]

theorem _norm_idem (strip : String → String)
    (h1 : ∀ s : String, ∀ c ∈ (strip s).toList, c.toNat < 128)
    (h2 : ∀ s : String, (∀ c ∈ s.toList, c.toNat < 128) → strip s = s)
    (s : String) : _norm strip (_norm strip s) = _norm strip s := by
  have hgood : ∀ t ∈ splitWs (((strip s).toList.map Char.toLower).map keepAlnumSpace),
      t ≠ [] ∧ ∀ c ∈ t, pyIsSpace c = false :=
    splitWsAux_good _ [] (by simp)
  have hmem : ∀ c ∈ joinSp (splitWs (((strip s).toList.map Char.toLower).map keepAlnumSpace)),
      c = ' ' ∨ c ∈ ((strip s).toList.map Char.toLower).map keepAlnumSpace := by
    intro c hc
    rcases mem_joinSp _ c hc with h | ⟨t, ht, hct⟩
    · exact Or.inl h
    · rcases splitWsAux_sub _ [] t ht c hct with h | h
      · simp at h
      · exact Or.inr h
  have hascii : ∀ c ∈ joinSp (splitWs (((strip s).toList.map Char.toLower).map keepAlnumSpace)),
      c.toNat < 128 := by
    intro c hc
    rcases hmem c hc with h | h
    · subst h; decide
    · rcases List.mem_map.mp h with ⟨c1, hc1, rfl⟩
      rcases List.mem_map.mp hc1 with ⟨c0, hc0, rfl⟩
      exact toNat_keep_lt_128 _ (toNat_lt_128_toLower _ (h1 s c0 hc0))
  have hlfix : ∀ c ∈ joinSp (splitWs (((strip s).toList.map Char.toLower).map keepAlnumSpace)),
      Char.toLower c = c := by
    intro c hc
    rcases hmem c hc with h | h
    · subst h; decide
    · rcases List.mem_map.mp h with ⟨c1, hc1, rfl⟩
      rcases List.mem_map.mp hc1 with ⟨c0, _, rfl⟩
      exact toLower_keep_toLower c0
  have hkfix : ∀ c ∈ joinSp (splitWs (((strip s).toList.map Char.toLower).map keepAlnumSpace)),
      keepAlnumSpace c = c := by
    intro c hc
    rcases hmem c hc with h | h
    · subst h; exact keep_space
    · rcases List.mem_map.mp h with ⟨c1, _, rfl⟩
      exact keep_keep c1
  have hstrip : strip ⟨joinSp (splitWs (((strip s).toList.map Char.toLower).map
      keepAlnumSpace))⟩ = ⟨joinSp (splitWs (((strip s).toList.map Char.toLower).map
      keepAlnumSpace))⟩ :=
    h2 _ (fun c hc => hascii c hc)
  show (⟨joinSp (splitWs (((strip (⟨joinSp (splitWs (((strip s).toList.map
      Char.toLower).map keepAlnumSpace))⟩ : String)).toList.map Char.toLower).map
      keepAlnumSpace))⟩ : String) = _
  rw [hstrip]
  show (⟨joinSp (splitWs (((joinSp (splitWs (((strip s).toList.map Char.toLower).map
      keepAlnumSpace))).map Char.toLower).map keepAlnumSpace))⟩ : String) = _
  rw [map_fix _ _ hlfix, map_fix _ _ hkfix, splitWs_joinSp _ hgood]
  rfl

/-- C7: both normalization functions of the source are idempotent:
`norm_text` (used by the duplicate detectors) for every string, and `_norm`
(used for name keys and top words) for every string, for every
accent-stripping function that yields ASCII output and fixes ASCII-only
strings (as `unicodedata.NFKD` followed by ASCII-encode-with-ignore does). -/
theorem normalization_idempotent :
    (∀ s : String, norm_text (norm_text s) = norm_text s)
    ∧ ∀ strip : String → String,
        (∀ s : String, ∀ c ∈ (strip s).toList, c.toNat < 128) →
        (∀ s : String, (∀ c ∈ s.toList, c.toNat < 128) → strip s = s) →
        ∀ s : String, _norm strip (_norm strip s) = _norm strip s :=
  ⟨norm_text_idem, _norm_idem⟩

/-- The ASCII-projection accent stripper: keeps exactly the code points
below 128 (a concrete function satisfying the two `strip` hypotheses). -/
def stripFilter (s : String) : String := ⟨s.toList.filter (fun c => c.toNat < 128)⟩

theorem normalization_idempotent_w :
    norm_text (norm_text "Thé Écolé  Dupont") = norm_text "Thé Écolé  Dupont"
    ∧ _norm stripFilter (_norm stripFilter "Thé Écolé  Dupont")
        = _norm stripFilter "Thé Écolé  Dupont" := by
  constructor
  · exact normalization_idempotent.1 "Thé Écolé  Dupont"
  · refine normalization_idempotent.2 stripFilter ?_ ?_ "Thé Écolé  Dupont"
    · intro s c hc
      have h : c ∈ s.toList.filter (fun c => c.toNat < 128) := hc
      simpa using (List.mem_filter.mp h).2
    · intro s hs
      show (⟨s.toList.filter (fun c => c.toNat < 128)⟩ : String) = s
      rw [List.filter_eq_self.mpr (fun c hc => by simpa using hs c hc)]
      rfl

/-! ## Duplicate detectors (lines 156-177, 227-232) -/

/-- Occurrence counts of a Python dict built with
`counts[key] = counts.get(key, 0) + 1`, read back with `.items()`:
keys in first-occurrence order, each with its total count. -/
def keyCounts (l : List String) : List (String × Nat) :=
  (uniqueKeys l).map (fun k => (k, l.countP (fun x => decide (x = k))))

/-- The per-user duplicate tally of one group: normalized texts occurring
more than once, with their counts. -/
def dupsOf (arr : List Msg) : List (String × Nat) :=
  (keyCounts (arr.map (fun m => norm_text m.message))).filter (fun p => decide (1 < p.2))

instance : DecidableRel (fun a b : String × Nat => b.2 ≤ a.2) :=
  fun a b => inferInstanceAs (Decidable (b.2 ≤ a.2))

/-- `sorted(dups, key=lambda x: x["count"], reverse=True)[:5]`. -/
def top5Dups (dups : List (String × Nat)) : List (String × Nat) :=
  (List.insertionSort (fun a b : String × Nat => b.2 ≤ a.2) dups).take 5

/-- `per_user_duplicates` (lines 160-168): for each user group, in key
order, whose tally has a repeated text, the user id with its top-5
duplicates by count descending.  (The report then keeps the first 10.) -/
def per_user_duplicates (msgs : List Msg) : List (String × List (String × Nat)) :=
  (group_by_user msgs).filterMap (fun g =>
    if dupsOf g.2 = [] then none else some (g.1, top5Dups (dupsOf g.2)))

/-- The number of distinct users that produced a given normalized text. -/
def textUserCount (msgs : List Msg) (t : String) : Nat :=
  (uniqueKeys ((msgs.filter (fun m => decide (norm_text m.message = t))).map
    Msg.user_id)).length

/-- `cross_user_duplicate_texts` (lines 170-177): normalized texts used by
more than one distinct user, the empty string excluded, sorted descending
by distinct-user count, capped at 20. -/
def cross_user_duplicate_texts (msgs : List Msg) : List (String × Nat) :=
  ((List.insertionSort (fun a b : String × Nat => b.2 ≤ a.2)
    (((uniqueKeys (msgs.map (fun m => norm_text m.message))).map
        (fun t => (t, textUserCount msgs t))).filter
      (fun p => decide (1 < p.2) && decide (0 < p.1.length)))).take 20)

/-- `str(m.get("id"))`: a missing id renders as the string `"None"`. -/
def strId : Option String → String
  | none => "None"
  | some s => s

/-- `dup_ids` (lines 227-232): stringified ids occurring more than once,
in first-occurrence order. -/
def dup_ids (msgs : List Msg) : List String :=
  ((keyCounts (msgs.map (fun m => strId m.id))).filter
    (fun p => decide (1 < p.2))).map Prod.fst

/-- `duplicate_message_id_examples` of the report: `dup_ids[:20]`. -/
def duplicate_message_id_examples (msgs : List Msg) : List String :=
  (dup_ids msgs).take 20

theorem mem_uniqueKeys_aux : ∀ (l acc : List String) (x : String),
    (x ∈ l.foldl (fun acc u => if u ∈ acc then acc else acc ++ [u]) acc)
      ↔ x ∈ acc ∨ x ∈ l := by
  intro l
  induction l with
  | nil => intro acc x; simp
  | cons u us ih =>
    intro acc x
    show (x ∈ us.foldl _ (if u ∈ acc then acc else acc ++ [u])) ↔ _
    by_cases hm : u ∈ acc
    · rw [if_pos hm, ih]
      constructor
      · rintro (h | h)
        · exact Or.inl h
        · exact Or.inr (List.mem_cons_of_mem _ h)
      · rintro (h | h)
        · exact Or.inl h
        · rcases List.mem_cons.mp h with h1 | h1
          · subst h1; exact Or.inl hm
          · exact Or.inr h1
    · rw [if_neg hm, ih]
      simp only [List.mem_append, List.mem_singleton, List.mem_cons]
      tauto

theorem mem_uniqueKeys (l : List String) (x : String) :
    x ∈ uniqueKeys l ↔ x ∈ l := by
  unfold uniqueKeys
  rw [mem_uniqueKeys_aux]
  simp

/-- The two-message corpus refuting C1: one user, texts `"Café!"` and
`"cafe"`, which differ only by an accent and a punctuation character. -/
def cafeCorpus : List Msg :=
  [⟨some "1", "u", "", "", "Café!"⟩, ⟨some "2", "u", "", "", "cafe"⟩]

/-- NFKD decomposition modelled for the characters of the examples: the
accented letter é decomposes to `e` followed by the combining acute accent
U+0301; every other character used here is NFKD-invariant. -/
def decompChar (c : Char) : List Char :=
  if c = 'é' then ['e', Char.ofNat 769] else [c]

/-- `_strip_accents` instantiated with the modelled decomposition: NFKD
then drop the code points that do not encode to ASCII. -/
def stripAccentsModel (s : String) : String :=
  ⟨(s.toList.flatMap decompChar).filter (fun c => c.toNat < 128)⟩

/-- C1 fails on the code: `"Café!"` and `"cafe"` differ only by an accent
and punctuation — the spec's 4.1 normalizer `_norm` equates them — yet the
duplicate detector normalizes with `norm_text` (lower-case plus whitespace
collapse only), which distinguishes them, so the two-message corpus yields
no per-user duplicate finding at all. -/
theorem cafe_not_counted_duplicate :
    _norm stripAccentsModel "Café!" = _norm stripAccentsModel "cafe"
    ∧ norm_text "Café!" ≠ norm_text "cafe"
    ∧ per_user_duplicates cafeCorpus = [] := by decide

/-- C1 (amended): the duplicate detector normalizes message text with
`norm_text`, i.e. lower-casing and whitespace collapsing only (no accent
stripping, no punctuation replacement); two messages of one user whose
texts agree after that normalization — texts differing only in case or in
whitespace runs — are tallied as the same per-user duplicate text. -/
theorem norm_text_variants_counted (uid ts n1 n2 s t : String)
    (h : norm_text s = norm_text t) :
    per_user_duplicates [⟨some n1, uid, "", ts, s⟩, ⟨some n2, uid, "", ts, t⟩]
      = [(uid, [(norm_text s, 2)])] := by
  simp [per_user_duplicates, group_by_user, groupOf, uniqueKeys, dupsOf, keyCounts,
    top5Dups, List.insertionSort, List.orderedInsert, strLe_refl, ← h]

theorem norm_text_variants_counted_w :
    per_user_duplicates [⟨some "1", "u", "", "", "Hello there"⟩,
        ⟨some "2", "u", "", "", "hello   there"⟩]
      = [("u", [(norm_text "Hello there", 2)])] :=
  norm_text_variants_counted "u" "" "1" "2" "Hello there" "hello   there" (by decide)

/-- C9 (amended): every corpus with at least two records lacking an `id`
counts the string `"None"` among the duplicated message ids; it appears
among the reported examples whenever the duplicated ids number at most 20
(the examples list is `dup_ids[:20]`). -/
theorem none_id_duplicate (msgs : List Msg)
    (h : 2 ≤ msgs.countP (fun m => decide (m.id = none))) :
    "None" ∈ dup_ids msgs
    ∧ ((dup_ids msgs).length ≤ 20 → "None" ∈ duplicate_message_id_examples msgs) := by
  have hmem : "None" ∈ msgs.map (fun m => strId m.id) := by
    have hpos : 0 < msgs.countP (fun m => decide (m.id = none)) := by omega
    rcases List.countP_pos_iff.mp hpos with ⟨m, hm, hpm⟩
    have hid : m.id = none := of_decide_eq_true hpm
    exact List.mem_map.mpr ⟨m, hm, by rw [hid]; rfl⟩
  have hcnt : 2 ≤ (msgs.map (fun m => strId m.id)).countP
      (fun x => decide (x = "None")) := by
    rw [List.countP_map]
    refine le_trans h (List.countP_mono_left ?_)
    intro m hm hp
    have hid : m.id = none := of_decide_eq_true hp
    simp [Function.comp, hid, strId]
  have hin : "None" ∈ dup_ids msgs := by
    unfold dup_ids
    refine List.mem_map.mpr ⟨("None", (msgs.map (fun m => strId m.id)).countP
      (fun x => decide (x = "None"))), ?_, rfl⟩
    refine List.mem_filter.mpr ⟨?_, ?_⟩
    · unfold keyCounts
      exact List.mem_map.mpr ⟨"None", (mem_uniqueKeys _ _).mpr hmem, rfl⟩
    · simp only [decide_eq_true_eq]
      omega
  refine ⟨hin, fun hlen => ?_⟩
  unfold duplicate_message_id_examples
  rw [List.take_of_length_le hlen]
  exact hin

theorem none_id_duplicate_w :
    "None" ∈ dup_ids [⟨none, "u", "", "", ""⟩, ⟨none, "u", "", "", ""⟩]
    ∧ ((dup_ids [⟨none, "u", "", "", ""⟩, ⟨none, "u", "", "", ""⟩]).length ≤ 20 →
        "None" ∈ duplicate_message_id_examples
          [⟨none, "u", "", "", ""⟩, ⟨none, "u", "", "", ""⟩]) :=
  none_id_duplicate [⟨none, "u", "", "", ""⟩, ⟨none, "u", "", "", ""⟩] (by decide)

/-- A single-character id string, `"a"`, `"b"`, ... -/
def idChr (k : Nat) : String := ⟨[Char.ofNat (97 + k)]⟩

/-- The corpus refuting the "examples" half of C9: 21 ids duplicated before
the first record lacking an id, so `"None"` is the 22nd duplicated id and
falls outside `dup_ids[:20]`. -/
def crowdedCorpus : List Msg :=
  ((List.range 21).flatMap (fun k =>
    [⟨some (idChr k), "u", "", "", ""⟩, ⟨some (idChr k), "u", "", "", ""⟩]))
  ++ [⟨none, "u", "", "", ""⟩, ⟨none, "u", "", "", ""⟩]

set_option maxRecDepth 4000 in
/-- C9 fails as stated: a corpus with two records lacking an id whose
report does not include `"None"` among the duplicate id examples, because
21 other duplicated ids precede it in first-occurrence order and the
examples list keeps only the first 20. -/
theorem none_id_crowded_out :
    2 ≤ crowdedCorpus.countP (fun m => decide (m.id = none))
    ∧ "None" ∉ duplicate_message_id_examples crowdedCorpus := by decide

/-- C10: the cross-user duplicate list never contains the empty string
(texts are admitted only with `len(t) > 0`), while the per-user tally does
not exclude it: a user with at least two messages whose normalized text is
empty gets the pair `("", count)` in their duplicate tally and an entry in
the per-user duplicate list. -/
theorem empty_text_duplicates :
    (∀ msgs : List Msg, ∀ p ∈ cross_user_duplicate_texts msgs, p.1 ≠ "")
    ∧ ∀ (msgs : List Msg) (uid : String),
        2 ≤ msgs.countP (fun m =>
          decide (m.user_id = uid) && decide (norm_text m.message = "")) →
        ("", (groupOf msgs uid).countP (fun m => decide (norm_text m.message = "")))
            ∈ dupsOf (groupOf msgs uid)
        ∧ ∃ ex, (uid, ex) ∈ per_user_duplicates msgs := by
  constructor
  · intro msgs p hp
    have h1 : p ∈ List.insertionSort (fun a b : String × Nat => b.2 ≤ a.2)
        (((uniqueKeys (msgs.map (fun m => norm_text m.message))).map
          (fun t => (t, textUserCount msgs t))).filter
          (fun p => decide (1 < p.2) && decide (0 < p.1.length))) :=
      List.mem_of_mem_take hp
    have h2 := (List.perm_insertionSort _ _).mem_iff.mp h1
    have h3 := (List.mem_filter.mp h2).2
    simp only [Bool.and_eq_true, decide_eq_true_eq] at h3
    intro he
    rw [he] at h3
    simp at h3
  · intro msgs uid h
    have hgc : (groupOf msgs uid).countP (fun m => decide (norm_text m.message = ""))
        = msgs.countP (fun m =>
            decide (m.user_id = uid) && decide (norm_text m.message = "")) := by
      unfold groupOf
      rw [(List.perm_insertionSort _ _).countP_eq, List.countP_filter]
      congr 1
      funext m
      exact Bool.and_comm _ _
    have hc2 : 2 ≤ (groupOf msgs uid).countP
        (fun m => decide (norm_text m.message = "")) := by
      rw [hgc]; exact h
    have hpos : 0 < (groupOf msgs uid).countP
        (fun m => decide (norm_text m.message = "")) := by omega
    rcases List.countP_pos_iff.mp hpos with ⟨m, hm, hpm⟩
    have hmn : norm_text m.message = "" := of_decide_eq_true hpm
    have hmem : "" ∈ (groupOf msgs uid).map (fun m => norm_text m.message) :=
      List.mem_map.mpr ⟨m, hm, hmn⟩
    have hkc : ((groupOf msgs uid).map (fun m => norm_text m.message)).countP
        (fun x => decide (x = ""))
        = (groupOf msgs uid).countP (fun m => decide (norm_text m.message = "")) := by
      rw [List.countP_map]
      rfl
    have hd : ("", (groupOf msgs uid).countP
        (fun m => decide (norm_text m.message = ""))) ∈ dupsOf (groupOf msgs uid) := by
      unfold dupsOf
      refine List.mem_filter.mpr ⟨?_, ?_⟩
      · unfold keyCounts
        exact List.mem_map.mpr ⟨"", (mem_uniqueKeys _ _).mpr hmem, by rw [hkc]⟩
      · simp only [decide_eq_true_eq]
        omega
    refine ⟨hd, ⟨top5Dups (dupsOf (groupOf msgs uid)), ?_⟩⟩
    have hpos2 : 0 < msgs.countP (fun m =>
        decide (m.user_id = uid) && decide (norm_text m.message = "")) := by omega
    rcases List.countP_pos_iff.mp hpos2 with ⟨m0, hm0, hpm0⟩
    have huid0 : m0.user_id = uid := by
      have := (Bool.and_eq_true _ _).mp hpm0
      exact of_decide_eq_true this.1
    have huid : uid ∈ uniqueKeys (msgs.map Msg.user_id) :=
      (mem_uniqueKeys _ _).mpr (List.mem_map.mpr ⟨m0, hm0, huid0⟩)
    unfold per_user_duplicates group_by_user
    refine List.mem_filterMap.mpr ⟨(uid, groupOf msgs uid),
      List.mem_map.mpr ⟨uid, huid, rfl⟩, ?_⟩
    rw [if_neg (List.ne_nil_of_mem hd)]

/-- Two messages of one user, one empty and one whitespace-only: both
normalize to the empty string. -/
def emptyPairCorpus : List Msg :=
  [⟨some "1", "u", "", "", ""⟩, ⟨some "2", "u", "", "", " "⟩]

theorem empty_text_duplicates_w :
    ("", (groupOf emptyPairCorpus "u").countP
        (fun m => decide (norm_text m.message = "")))
      ∈ dupsOf (groupOf emptyPairCorpus "u")
    ∧ ∃ ex, ("u", ex) ∈ per_user_duplicates emptyPairCorpus :=
  empty_text_duplicates.2 emptyPairCorpus "u" (by decide)

/-! ## PII samples (lines 179-199, 391-395)

The three regular expressions are parameters of the embedding: `phoneHit`
and `emailHit` model `phone_re.search` / `email_re.search` on a message
text, `ccFinds` models `cc_re.finditer` (the list of matched substrings in
order).  The selection logic around them — the loop, the per-family
appends, the at-most-one credit-card sample per message, and the caps
applied at report assembly — is the code under verification. -/

/-- A reported PII sample: raw `id`, `user_id`, first 160 characters. -/
structure PiiSample where
  id : Option String
  user_id : String
  snippet : String
deriving DecidableEq

/-- `txt[:160]`. -/
def snippet160 (s : String) : String := ⟨s.toList.take 160⟩

def piiSampleOf (m : Msg) : PiiSample := ⟨m.id, m.user_id, snippet160 m.message⟩

/-- Validation of one credit-card-like match (lines 194-195): digit-only
form of length 13-19 passing `luhn_check`. -/
def ccValid (g : String) : Bool :=
  let ds := g.toList.filter Char.isDigit
  decide (13 ≤ ds.length) && decide (ds.length ≤ 19) && luhn_check ⟨ds⟩

/-- One iteration of the sampling loop (lines 187-199): append a sample for
each regex family that hits this message; the credit-card family appends at
most once per message (`break` on the first valid match); the trailing
length test only guards a `continue` and filters nothing. -/
def piiStep (phoneHit emailHit : String → Bool) (ccFinds : String → List String)
    (acc : List PiiSample × List PiiSample × List PiiSample) (m : Msg) :
    List PiiSample × List PiiSample × List PiiSample :=
  (if phoneHit m.message then acc.1 ++ [piiSampleOf m] else acc.1,
   if emailHit m.message then acc.2.1 ++ [piiSampleOf m] else acc.2.1,
   if (ccFinds m.message).any ccValid then acc.2.2 ++ [piiSampleOf m] else acc.2.2)

/-- The sampling loop over the corpus. -/
def piiSamples (phoneHit emailHit : String → Bool) (ccFinds : String → List String)
    (msgs : List Msg) : List PiiSample × List PiiSample × List PiiSample :=
  msgs.foldl (piiStep phoneHit emailHit ccFinds) ([], [], [])

/-- `pii_samples.phone_like` of the report: `phone_msgs[:10]`. -/
def phone_like (phoneHit emailHit : String → Bool) (ccFinds : String → List String)
    (msgs : List Msg) : List PiiSample :=
  (piiSamples phoneHit emailHit ccFinds msgs).1.take 10

/-- `pii_samples.email_like` of the report: `email_msgs[:10]`. -/
def email_like (phoneHit emailHit : String → Bool) (ccFinds : String → List String)
    (msgs : List Msg) : List PiiSample :=
  (piiSamples phoneHit emailHit ccFinds msgs).2.1.take 10

/-- `pii_samples.credit_card_like` of the report: `cc_msgs[:5]`. -/
def credit_card_like (phoneHit emailHit : String → Bool) (ccFinds : String → List String)
    (msgs : List Msg) : List PiiSample :=
  (piiSamples phoneHit emailHit ccFinds msgs).2.2.take 5

theorem piiFold_fst (ph em : String → Bool) (cc : String → List String) :
    ∀ (msgs : List Msg) (acc : List PiiSample × List PiiSample × List PiiSample),
      (msgs.foldl (piiStep ph em cc) acc).1
        = acc.1 ++ (msgs.filter (fun m => ph m.message)).map piiSampleOf := by
  intro msgs
  induction msgs with
  | nil => intro acc; simp
  | cons m ms ih =>
    intro acc
    rw [List.foldl_cons, ih]
    by_cases hp : ph m.message
    · simp [piiStep, hp]
    · simp [piiStep, hp]

theorem piiFold_snd (ph em : String → Bool) (cc : String → List String) :
    ∀ (msgs : List Msg) (acc : List PiiSample × List PiiSample × List PiiSample),
      (msgs.foldl (piiStep ph em cc) acc).2.1
        = acc.2.1 ++ (msgs.filter (fun m => em m.message)).map piiSampleOf := by
  intro msgs
  induction msgs with
  | nil => intro acc; simp
  | cons m ms ih =>
    intro acc
    rw [List.foldl_cons, ih]
    by_cases hp : em m.message
    · simp [piiStep, hp]
    · simp [piiStep, hp]

theorem piiFold_thd (ph em : String → Bool) (cc : String → List String) :
    ∀ (msgs : List Msg) (acc : List PiiSample × List PiiSample × List PiiSample),
      (msgs.foldl (piiStep ph em cc) acc).2.2
        = acc.2.2 ++ (msgs.filter (fun m => (cc m.message).any ccValid)).map piiSampleOf := by
  intro msgs
  induction msgs with
  | nil => intro acc; simp
  | cons m ms ih =>
    intro acc
    rw [List.foldl_cons, ih]
    by_cases hp : (cc m.message).any ccValid
    · simp [piiStep, hp]
    · simp [piiStep, hp]

/-- C8: the reported PII samples are selected in corpus order: for every
corpus and every choice of the three regex functions, `phone_like` is
exactly one `(id, user_id, 160-character snippet)` entry for each of the
first up-to-10 messages whose text the phone regex hits, `email_like`
likewise with cap 10, and `credit_card_like` one entry (never more, even
with several valid matches) for each of the first up-to-5 messages with a
Luhn-valid 13-19-digit match, with cap 5. -/
theorem pii_samples_in_corpus_order (ph em : String → Bool)
    (cc : String → List String) (msgs : List Msg) :
    phone_like ph em cc msgs
      = ((msgs.filter (fun m => ph m.message)).take 10).map piiSampleOf
    ∧ email_like ph em cc msgs
      = ((msgs.filter (fun m => em m.message)).take 10).map piiSampleOf
    ∧ credit_card_like ph em cc msgs
      = ((msgs.filter (fun m => (cc m.message).any ccValid)).take 5).map piiSampleOf := by
  refine ⟨?_, ?_, ?_⟩
  · unfold phone_like piiSamples
    rw [piiFold_fst]
    simp [List.map_take]
  · unfold email_like piiSamples
    rw [piiFold_snd]
    simp [List.map_take]
  · unfold credit_card_like piiSamples
    rw [piiFold_thd]
    simp [List.map_take]

/-! ## Cadence detector (lines 316-341)

Parsed instants are integers (epoch seconds); the arithmetic of the
detector — mean, population variance, coefficient of variation — is exact
rational arithmetic.  The comparison `cv < 0.08` of the source is encoded
without the square root: for a positive mean, `std / mean < 2/25` holds
exactly when `625 · variance < 4 · mean²`, and the sort key `cv` is
represented by its square `cv² = variance / mean²` (the same ordering,
since `cv ≥ 0`). -/

/-- A flagged cadence entry: user id, mean gap, squared coefficient of
variation, and number of gaps. -/
structure CadEntry where
  user_id : String
  mean_gap : ℚ
  cvSq : ℚ
  samples : Nat
deriving DecidableEq

/-- All successfully parsed timestamps of a group, in group order. -/
def parsedTimes (tsParse : String → Option Int) (arr : List Msg) : List Int :=
  arr.filterMap (fun m => tsParse m.timestamp)

/-- `times.sort()`. -/
def sortedTimes (ts : List Int) : List Int :=
  List.insertionSort (fun a b : Int => a ≤ b) ts

/-- `gaps = [(times[i] - times[i-1]).total_seconds() for i in 1..]`. -/
def gapsOf (ts : List Int) : List Int :=
  List.zipWith (fun a b => a - b) (sortedTimes ts).tail (sortedTimes ts)

/-- `mean_gap = sum(gaps) / len(gaps)`. -/
def meanOf (gaps : List Int) : ℚ :=
  ((gaps.sum : ℚ)) / (gaps.length : ℚ)

/-- Population variance: `sum((g - mean)**2 for g in gaps) / len(gaps)`. -/
def varOf (gaps : List Int) : ℚ :=
  ((gaps.map (fun g => ((g : ℚ) - meanOf gaps) ^ 2)).sum) / (gaps.length : ℚ)

/-- `cv < 0.08` as the source computes it (`cv = std/mean if mean > 0 else
0.0`), in square-free form: for positive mean, `std/mean < 2/25` iff
`625·var < 4·mean²`; for non-positive mean, `cv = 0 < 0.08` holds. -/
def cvOkB (gaps : List Int) : Bool :=
  if 0 < meanOf gaps then decide (625 * varOf gaps < 4 * meanOf gaps ^ 2) else true

/-- The sort key: `cv²` (`0` when the mean is not positive, as `cv = 0`). -/
def cvSqOf (gaps : List Int) : ℚ :=
  if 0 < meanOf gaps then varOf gaps / meanOf gaps ^ 2 else 0

/-- One iteration of the cadence loop (lines 318-340): skip groups of fewer
than 8 messages, skip groups with fewer than 8 parsed timestamps, skip an
empty gap list, and flag when `10 ≤ mean ≤ 86400` and `cv < 0.08`. -/
def cadFlag? (tsParse : String → Option Int) (g : String × List Msg) : Option CadEntry :=
  if g.2.length < 8 then none
  else if (parsedTimes tsParse g.2).length < 8 then none
  else if gapsOf (parsedTimes tsParse g.2) = [] then none
  else if decide (10 ≤ meanOf (gapsOf (parsedTimes tsParse g.2)))
        && decide (meanOf (gapsOf (parsedTimes tsParse g.2)) ≤ 86400)
        && cvOkB (gapsOf (parsedTimes tsParse g.2)) then
    some ⟨g.1, meanOf (gapsOf (parsedTimes tsParse g.2)),
      cvSqOf (gapsOf (parsedTimes tsParse g.2)),
      (gapsOf (parsedTimes tsParse g.2)).length⟩
  else none

instance : DecidableRel (fun a b : CadEntry => a.cvSq ≤ b.cvSq) :=
  fun a b => inferInstanceAs (Decidable (a.cvSq ≤ b.cvSq))

/-- `suspicious_cadence` sorted ascending by `cv` and capped at 50
(line 341 and report assembly line 411). -/
def suspicious_cadence (tsParse : String → Option Int)
    (groups : List (String × List Msg)) : List CadEntry :=
  (List.insertionSort (fun a b : CadEntry => a.cvSq ≤ b.cvSq)
    (groups.filterMap (cadFlag? tsParse))).take 50

/-- A concrete timestamp parse for witnesses: strings of decimal digits. -/
def digitParse (s : String) : Option Int :=
  if s.toList ≠ [] ∧ s.toList.all Char.isDigit then
    some (s.toList.foldl (fun n c => n * 10 + ((c.toNat : Int) - 48)) 0)
  else none

/-- Ten messages of one user at exact 60-second intervals. -/
def sixtyMsgs : List Msg :=
  [⟨some "x", "u", "", "0", ""⟩, ⟨some "x", "u", "", "60", ""⟩,
   ⟨some "x", "u", "", "120", ""⟩, ⟨some "x", "u", "", "180", ""⟩,
   ⟨some "x", "u", "", "240", ""⟩, ⟨some "x", "u", "", "300", ""⟩,
   ⟨some "x", "u", "", "360", ""⟩, ⟨some "x", "u", "", "420", ""⟩,
   ⟨some "x", "u", "", "480", ""⟩, ⟨some "x", "u", "", "540", ""⟩]

theorem varOf_nonneg (gaps : List Int) : 0 ≤ varOf gaps := by
  unfold varOf
  apply div_nonneg
  · apply List.sum_nonneg
    intro x hx
    rcases List.mem_map.mp hx with ⟨g, _, rfl⟩
    exact sq_nonneg _
  · exact_mod_cast Nat.zero_le _

theorem gapsOf_length (ts : List Int) : (gapsOf ts).length = ts.length - 1 := by
  unfold gapsOf sortedTimes
  rw [List.length_zipWith, List.length_tail, List.length_insertionSort]
  omega

theorem sixty_gaps : gapsOf (parsedTimes digitParse sixtyMsgs)
    = [60, 60, 60, 60, 60, 60, 60, 60, 60] := by decide

theorem sixty_mean : meanOf [60, 60, 60, 60, 60, 60, 60, 60, 60] = 60 := by
  unfold meanOf
  norm_num

theorem sixty_var : varOf [60, 60, 60, 60, 60, 60, 60, 60, 60] = 0 := by
  unfold varOf
  rw [sixty_mean]
  norm_num

theorem sixty_flag : cadFlag? digitParse ("u", sixtyMsgs) = some ⟨"u", 60, 0, 9⟩ := by
  unfold cadFlag?
  rw [if_neg (by decide), if_neg (by decide), if_neg (by decide)]
  rw [sixty_gaps]
  have h3 : cvOkB [60, 60, 60, 60, 60, 60, 60, 60, 60] = true := by
    unfold cvOkB
    rw [sixty_mean, sixty_var]
    rw [if_pos (by norm_num)]
    norm_num
  rw [if_pos (by
    rw [sixty_mean, h3]
    rfl)]
  have h4 : cvSqOf [60, 60, 60, 60, 60, 60, 60, 60, 60] = 0 := by
    unfold cvSqOf
    rw [sixty_mean, sixty_var]
    rw [if_pos (by norm_num)]
    norm_num
  rw [sixty_mean, h4]
  rfl

theorem cvOkB_iff_real (gaps : List Int) (hm : (10 : ℚ) ≤ meanOf gaps) :
    cvOkB gaps = true
      ↔ Real.sqrt (varOf gaps : ℝ) / ((meanOf gaps : ℚ) : ℝ) < 8 / 100 := by
  have hpos : (0 : ℚ) < meanOf gaps := by linarith
  have hposR : (0 : ℝ) < ((meanOf gaps : ℚ) : ℝ) := by exact_mod_cast hpos
  unfold cvOkB
  rw [if_pos hpos]
  rw [decide_eq_true_eq]
  rw [div_lt_iff₀ hposR]
  rw [show (8 : ℝ) / 100 * ((meanOf gaps : ℚ) : ℝ) = (2 / 25) * ((meanOf gaps : ℚ) : ℝ) by ring]
  rw [Real.sqrt_lt' (by positivity)]
  rw [show ((2 : ℝ) / 25 * ((meanOf gaps : ℚ) : ℝ)) ^ 2
        = (4 / 625) * ((meanOf gaps : ℚ) : ℝ) ^ 2 by ring]
  constructor
  · intro h
    have hR : ((625 : ℚ) * varOf gaps : ℚ) < (4 * meanOf gaps ^ 2 : ℚ) := h
    have : ((625 * varOf gaps : ℚ) : ℝ) < ((4 * meanOf gaps ^ 2 : ℚ) : ℝ) := by
      exact_mod_cast hR
    push_cast at this
    nlinarith [this]
  · intro h
    have : ((625 * varOf gaps : ℚ) : ℝ) < ((4 * meanOf gaps ^ 2 : ℚ) : ℝ) := by
      push_cast
      nlinarith [h]
    exact_mod_cast this

/-- C4: for every parse function and list of user groups — (i) the reported
cadence list has at most 50 entries; (ii) it is sorted ascending by the
coefficient of variation; (iii) a group is flagged exactly when it has at
least 8 messages, at least 8 parsed timestamps, mean gap between 10 and
86400 seconds, and `cv = std/mean < 0.08` (population variance, `cv = 0`
for a zero mean); (iv) when at most 50 groups are flagged the reported list
contains exactly the flagged entries.  In particular ten messages at exact
60-second intervals are flagged. -/
theorem cadence_correct :
    (∀ (tsParse : String → Option Int) (groups : List (String × List Msg)),
      (suspicious_cadence tsParse groups).length ≤ 50
      ∧ (suspicious_cadence tsParse groups).Pairwise
          (fun a b => Real.sqrt (a.cvSq : ℝ) ≤ Real.sqrt (b.cvSq : ℝ))
      ∧ (∀ g ∈ groups, (cadFlag? tsParse g).isSome ↔
          (8 ≤ g.2.length ∧ 8 ≤ (parsedTimes tsParse g.2).length
            ∧ 10 ≤ meanOf (gapsOf (parsedTimes tsParse g.2))
            ∧ meanOf (gapsOf (parsedTimes tsParse g.2)) ≤ 86400
            ∧ (if 0 < meanOf (gapsOf (parsedTimes tsParse g.2))
                then Real.sqrt ((varOf (gapsOf (parsedTimes tsParse g.2)) : ℚ) : ℝ)
                  / ((meanOf (gapsOf (parsedTimes tsParse g.2)) : ℚ) : ℝ)
                else 0) < 8 / 100))
      ∧ ((groups.filterMap (cadFlag? tsParse)).length ≤ 50 →
          ∀ e, e ∈ suspicious_cadence tsParse groups
            ↔ e ∈ groups.filterMap (cadFlag? tsParse)))
    ∧ cadFlag? digitParse ("u", sixtyMsgs) = some ⟨"u", 60, 0, 9⟩ := by
  constructor
  · intro tsParse groups
    haveI htot : IsTotal CadEntry (fun a b => a.cvSq ≤ b.cvSq) :=
      ⟨fun a b => le_total _ _⟩
    haveI htrans : IsTrans CadEntry (fun a b => a.cvSq ≤ b.cvSq) :=
      ⟨fun _ _ _ hab hbc => le_trans hab hbc⟩
    refine ⟨?_, ?_, ?_, ?_⟩
    · unfold suspicious_cadence
      rw [List.length_take]
      exact Nat.min_le_left _ _
    · have hs : (List.insertionSort (fun a b : CadEntry => a.cvSq ≤ b.cvSq)
          (groups.filterMap (cadFlag? tsParse))).Pairwise
          (fun a b => a.cvSq ≤ b.cvSq) :=
        List.sorted_insertionSort _ _
      have ht : (suspicious_cadence tsParse groups).Pairwise
          (fun a b : CadEntry => a.cvSq ≤ b.cvSq) :=
        hs.sublist (List.take_sublist _ _)
      exact ht.imp (fun hab => Real.sqrt_le_sqrt (by exact_mod_cast hab))
    · intro g _
      by_cases h1 : g.2.length < 8
      · unfold cadFlag?
        rw [if_pos h1]
        simp only [Option.isSome_none, Bool.false_eq_true, false_iff]
        rintro ⟨h, _⟩
        omega
      · by_cases h2 : (parsedTimes tsParse g.2).length < 8
        · unfold cadFlag?
          rw [if_neg h1, if_pos h2]
          simp only [Option.isSome_none, Bool.false_eq_true, false_iff]
          rintro ⟨_, h, _⟩
          omega
        · have hgaps : gapsOf (parsedTimes tsParse g.2) ≠ [] := by
            have := gapsOf_length (parsedTimes tsParse g.2)
            intro he
            rw [he] at this
            simp at this
            omega
          unfold cadFlag?
          rw [if_neg h1, if_neg h2, if_neg hgaps]
          constructor
          · intro hsome
            have hcond : (decide (10 ≤ meanOf (gapsOf (parsedTimes tsParse g.2)))
                && decide (meanOf (gapsOf (parsedTimes tsParse g.2)) ≤ 86400)
                && cvOkB (gapsOf (parsedTimes tsParse g.2))) = true := by
              by_contra hc
              rw [if_neg hc] at hsome
              simp at hsome
            rw [Bool.and_eq_true, Bool.and_eq_true] at hcond
            obtain ⟨⟨ha, hb⟩, hc⟩ := hcond
            rw [decide_eq_true_eq] at ha hb
            have hpos : (0 : ℚ) < meanOf (gapsOf (parsedTimes tsParse g.2)) := by
              linarith
            refine ⟨by omega, by omega, ha, hb, ?_⟩
            rw [if_pos hpos]
            exact (cvOkB_iff_real _ ha).mp hc
          · rintro ⟨_, _, ha, hb, hcv⟩
            have hpos : (0 : ℚ) < meanOf (gapsOf (parsedTimes tsParse g.2)) := by
              linarith
            rw [if_pos hpos] at hcv
            rw [if_pos ?_]
            · simp
            · rw [Bool.and_eq_true, Bool.and_eq_true]
              exact ⟨⟨decide_eq_true ha, decide_eq_true hb⟩,
                (cvOkB_iff_real _ ha).mpr hcv⟩
    · intro hlen e
      unfold suspicious_cadence
      rw [List.take_of_length_le (by rw [List.length_insertionSort]; exact hlen)]
      exact (List.perm_insertionSort _ _).mem_iff
  · exact sixty_flag

theorem sixty_filterMap :
    [("u", sixtyMsgs)].filterMap (cadFlag? digitParse) = [⟨"u", 60, 0, 9⟩] := by
  simp [List.filterMap, sixty_flag]

theorem cadence_correct_w :
    (⟨"u", 60, 0, 9⟩ : CadEntry) ∈ suspicious_cadence digitParse [("u", sixtyMsgs)] := by
  have h := (cadence_correct.1 digitParse [("u", sixtyMsgs)]).2.2.2
    (by rw [sixty_filterMap]; simp)
  refine (h _).mpr ?_
  rw [sixty_filterMap]
  simp

/-! ## The full analyzer (`analyze`, lines 83-416)

Python's `datetime` order comparisons raise `TypeError` between an
offset-naive and an offset-aware value, so a parsed datetime is modelled
with an awareness flag, and every order comparison or subtraction of two
datetimes is a fallible operation; the whole of `analyze` is threaded
through `Except Unit`, an `.error ()` being an uncaught Python exception.
All other detectors are total.  The external primitives — the two datetime
parsers, the evaluation time, accent stripping and the regex engines — are
collected in a context `Ctx`. -/

/-- A parsed datetime: offset-awareness flag, instant (epoch seconds,
comparable only between equally aware values), calendar year. -/
structure DT where
  aware : Bool
  t : Int
  year : Int
deriving DecidableEq

/-- `a < b` on Python datetimes: a `TypeError` — `.error ()` — when exactly
one side is offset-aware. -/
def dtLt (a b : DT) : Except Unit Bool :=
  if a.aware = b.aware then .ok (decide (a.t < b.t)) else .error ()

/-- The external primitives of `analyze`:
`parseTs` is `datetime.fromisoformat` (after the `Z` → `+00:00` rewrite,
`none` meaning the parse raises), `nowT` the epoch second of
`datetime.now(timezone.utc)`, `stripAccents` is `_strip_accents`,
`findPhones`/`findEmails` are `findall` of the phone/email regexes (a
`search` success is a nonempty result), `findCc` is `cc_re.finditer`,
`findDateStrs` the concatenated `findall` results of the three date
patterns, and `parseDate` the fuzzy `dateutil` parse to an ISO date. -/
structure Ctx where
  parseTs : String → Option DT
  nowT : Int
  stripAccents : String → String
  findPhones : String → List String
  findEmails : String → List String
  findCc : String → List String
  findDateStrs : String → List String
  parseDate : String → Option String

/-- `re.search` hits exactly when `findall` is nonempty. -/
def searchB (find : String → List String) (s : String) : Bool :=
  !(find s).isEmpty

instance : DecidableRel (fun a b : String => strLe a b = true) :=
  fun _ _ => inferInstanceAs (Decidable (_ = true))

/-- `sorted` on strings (code-point lexicographic, as in Python). -/
def sortedStrings (l : List String) : List String :=
  List.insertionSort (fun a b : String => strLe a b = true) l

/-- Adjacent deduplication (equal elements of a sorted list are adjacent). -/
def dedupAdj : List String → List String
  | [] => []
  | [x] => [x]
  | x :: y :: rest => if x = y then dedupAdj (y :: rest) else x :: dedupAdj (y :: rest)

/-- `sorted(set(l))`. -/
def sortedSet (l : List String) : List String := dedupAdj (sortedStrings l)

/-- The number of distinct elements of `l` (the size of `set(l)`). -/
def distinctCount (l : List String) : Nat := (uniqueKeys l).length

/-- Lines 87-92: users recorded under more than one non-empty name. -/
def multi_name_users (msgs : List Msg) : List (String × List String) :=
  (group_by_user msgs).filterMap (fun g =>
    if 1 < (sortedSet ((g.2.filter (fun m => decide (m.user_name ≠ ""))).map
        Msg.user_name)).length then
      some (g.1, sortedSet ((g.2.filter (fun m => decide (m.user_name ≠ ""))).map
        Msg.user_name))
    else none)

/-- Lines 95-108: exact names used by more than one distinct user id. -/
def full_name_collisions (msgs : List Msg) : List (String × List String) :=
  (uniqueKeys ((msgs.filter (fun m => decide (m.user_name ≠ ""))).map
    Msg.user_name)).filterMap (fun n =>
      if 1 < distinctCount (((msgs.filter (fun m => decide (m.user_name ≠ ""))).filter
          (fun m => decide (m.user_name = n))).map Msg.user_id) then
        some (n, sortedSet (((msgs.filter (fun m => decide (m.user_name ≠ ""))).filter
          (fun m => decide (m.user_name = n))).map Msg.user_id))
      else none)

/-- The normalized first token of a name (`_norm(uname).split(" ")[0]`),
empty when the normalization is empty. -/
def firstTok (stripAccents : String → String) (s : String) : String :=
  match splitWs (_norm stripAccents s).toList with
  | [] => ""
  | t :: _ => ⟨t⟩

instance : DecidableRel (fun a b : String × Nat => b.2 ≤ a.2) :=
  fun a b => inferInstanceAs (Decidable (b.2 ≤ a.2))

/-- Lines 96-112: normalized first name tokens shared by more than one
user id, sorted descending by distinct-id count. -/
def first_name_collisions (stripAccents : String → String)
    (msgs : List Msg) : List (String × Nat) :=
  List.insertionSort (fun a b : String × Nat => b.2 ≤ a.2)
    (((uniqueKeys ((msgs.filter (fun m =>
        decide (m.user_name ≠ "") && decide (firstTok stripAccents m.user_name ≠ ""))).map
        (fun m => firstTok stripAccents m.user_name))).map (fun n =>
          (n, distinctCount ((msgs.filter (fun m =>
            decide (m.user_name ≠ "")
              && decide (firstTok stripAccents m.user_name = n))).map
            Msg.user_id)))).filter (fun p => decide (1 < p.2)))

/-- The Unicode replacement character U+FFFD. -/
def repChar : Char := Char.ofNat 65533

def hasRep (s : String) : Bool := s.toList.any (fun c => decide (c = repChar))

/-- An encoding-anomaly message sample (lines 120-125). -/
structure BadSample where
  id : Option String
  user_id : String
  user_name : String
  snippet : String
deriving DecidableEq

/-- Lines 115-127: distinct names containing the replacement character, and
the first 50 messages containing it. -/
def bad_name_examples (msgs : List Msg) : List String :=
  sortedSet ((msgs.filter (fun m => hasRep m.user_name)).map Msg.user_name)

def sample_bad_messages (msgs : List Msg) : List BadSample :=
  ((msgs.filter (fun m => hasRep m.message)).take 50).map
    (fun m => ⟨m.id, m.user_id, m.user_name, snippet160 m.message⟩)

/-- The permissive UUID shape of line 217 on a character list:
32-36 characters, all hex digits or hyphens. -/
def uuidOk (l : List Char) : Bool :=
  decide (32 ≤ l.length) && decide (l.length ≤ 36)
    && l.all (fun c => c.isDigit || (97 ≤ c.toNat && c.toNat ≤ 102)
        || (65 ≤ c.toNat && c.toNat ≤ 70) || c.toNat = 45)

/-- `uuid_re.match(s)`: anchored match; `$` also matches before one final
newline. -/
def uuidLike (s : String) : Bool :=
  uuidOk s.toList
    || (match s.toList.getLast? with
        | some c => if c = '\n' then uuidOk s.toList.dropLast else false
        | none => false)

/-- `re.sub(r"\D+", "", s)`. -/
def normPhone (s : String) : String := ⟨s.toList.filter Char.isDigit⟩

/-- Per-character lower-casing, `s.lower()` of the model. -/
def lowerStr (s : String) : String := ⟨s.toList.map Char.toLower⟩

/-- Lines 239-255: phone numbers (digit-normalized, length at least 7) and
e-mail addresses (lower-cased) used by more than one distinct user, sorted
descending by user count. -/
def shared_phones (findPhones : String → List String)
    (msgs : List Msg) : List (String × Nat) :=
  List.insertionSort (fun a b : String × Nat => b.2 ≤ a.2)
    (((uniqueKeys (msgs.flatMap (fun m =>
        (findPhones m.message).map normPhone))).map (fun p =>
          (p, distinctCount ((msgs.filter (fun m =>
            (findPhones m.message).any (fun ph => decide (normPhone ph = p)))).map
            Msg.user_id)))).filter
      (fun p => decide (1 < p.2) && decide (7 ≤ p.1.length)))

def shared_emails (findEmails : String → List String)
    (msgs : List Msg) : List (String × Nat) :=
  List.insertionSort (fun a b : String × Nat => b.2 ≤ a.2)
    (((uniqueKeys (msgs.flatMap (fun m =>
        (findEmails m.message).map lowerStr))).map (fun e =>
          (e, distinctCount ((msgs.filter (fun m =>
            (findEmails m.message).any (fun em => decide (lowerStr em = e)))).map
            Msg.user_id)))).filter (fun p => decide (1 < p.2)))

/-- Substring containment on character lists (`pat in txt` of Python). -/
def containsSub (pat : List Char) : List Char → Bool
  | [] => pat.isEmpty
  | c :: cs => pat.isPrefixOf (c :: cs) || containsSub pat cs

/-- The fixed gazetteer of lines 258-262. -/
def cityList : List String :=
  ["new york", "nyc", "paris", "london", "tokyo", "milan", "monaco", "bangkok",
   "singapore", "rome", "berlin", "barcelona", "dubai", "sydney", "los angeles",
   "san francisco", "serengeti", "monte carlo", "venice", "prague", "vienna",
   "amsterdam", "seoul", "hong kong"]

/-- Lines 264-270: gazetteer entries contained in the normalized text. -/
def extractCities (stripAccents : String → String) (txt : String) : List String :=
  cityList.filter (fun c => containsSub c.toList (_norm stripAccents txt).toList)

/-- Lines 277-290: regex date candidates, fuzzily parsed, deduplicated
keeping first occurrences (`dict.fromkeys`). -/
def extractDates (ctx : Ctx) (txt : String) : List String :=
  uniqueKeys ((ctx.findDateStrs txt).filterMap ctx.parseDate)

/-- Lines 294-311: users whose messages contain both `"prefer aisle"` and
`"prefer window"` (on lower-cased text). -/
def seat_preference_flips (msgs : List Msg) : List String :=
  ((group_by_user msgs).filter (fun g =>
    g.2.any (fun m => containsSub "prefer aisle".toList (lowerStr m.message).toList)
      && g.2.any (fun m =>
        containsSub "prefer window".toList (lowerStr m.message).toList))).map Prod.fst

/-- The (date, city) pairs mentioned by one user group (lines 298-309). -/
def dateCityPairs (ctx : Ctx) (arr : List Msg) : List (String × String) :=
  arr.flatMap (fun m =>
    (extractDates ctx (lowerStr m.message)).flatMap (fun d =>
      (extractCities ctx.stripAccents (lowerStr m.message)).map (fun c => (d, c))))

/-- Lines 312-314: per user and date, more than one distinct city. -/
def same_day_multi_city (ctx : Ctx) (msgs : List Msg) :
    List (String × String × List String) :=
  (group_by_user msgs).flatMap (fun g =>
    (uniqueKeys ((dateCityPairs ctx g.2).map Prod.fst)).filterMap (fun d =>
      if 1 < (sortedSet (((dateCityPairs ctx g.2).filter
          (fun p => decide (p.1 = d))).map Prod.snd)).length then
        some (g.1, d, sortedSet (((dateCityPairs ctx g.2).filter
          (fun p => decide (p.1 = d))).map Prod.snd))
      else none))

/-- The ASCII ratio of a message (line 351-352). -/
def asciiRatio (s : String) : ℚ :=
  (((s.toList.filter (fun c => c.toNat < 128)).length : ℚ)) / ((max 1 s.length : Nat) : ℚ)

def listMinQ : List ℚ → ℚ
  | [] => 0
  | x :: xs => xs.foldl min x

def listMaxQ : List ℚ → ℚ
  | [] => 0
  | x :: xs => xs.foldl max x

/-- Lines 344-357: users whose non-empty messages span an ASCII ratio from
below 0.6 to above 0.95. -/
def script_shift_users (msgs : List Msg) : List (String × ℚ × ℚ) :=
  (group_by_user msgs).filterMap (fun g =>
    if (g.2.filter (fun m => decide (m.message ≠ ""))).isEmpty then none
    else if decide (listMinQ ((g.2.filter (fun m => decide (m.message ≠ ""))).map
          (fun m => asciiRatio m.message)) < 3 / 5)
        && decide (19 / 20 < listMaxQ ((g.2.filter (fun m => decide (m.message ≠ ""))).map
          (fun m => asciiRatio m.message))) then
      some (g.1,
        listMinQ ((g.2.filter (fun m => decide (m.message ≠ ""))).map
          (fun m => asciiRatio m.message)),
        listMaxQ ((g.2.filter (fun m => decide (m.message ≠ ""))).map
          (fun m => asciiRatio m.message)))
    else none)

/-- Banker's rounding of a rational (the idealized `round(x, n)`). -/
def roundHalfEven (q : ℚ) : Int :=
  if q - ⌊q⌋ < 1 / 2 then ⌊q⌋
  else if 1 / 2 < q - ⌊q⌋ then ⌊q⌋ + 1
  else if Even ⌊q⌋ then ⌊q⌋ else ⌊q⌋ + 1

def pyRound2 (q : ℚ) : ℚ := ((roundHalfEven (q * 100) : ℚ)) / 100

/-- The stop-word list of lines 206-208. -/
def stopWords : List String :=
  ["a", "an", "the", "is", "are", "was", "were", "am", "i", "you", "he", "she",
   "it", "we", "they", "of", "to", "in", "on", "for", "with", "and", "or", "as",
   "at", "by", "from", "that", "this", "these", "those", "what", "when", "how",
   "many", "does", "do", "did", "have", "has", "had", "my", "me", "your", "our",
   "their"]

/-- Lines 209-214: normalized, tokenized, stop-word-filtered word counts,
top 25 by count descending. -/
def top_words (stripAccents : String → String) (msgs : List Msg) : List (String × Nat) :=
  (List.insertionSort (fun a b : String × Nat => b.2 ≤ a.2)
    (keyCounts ((msgs.flatMap (fun m =>
      (splitWs (_norm stripAccents m.message).toList).map
        (fun t => (⟨t⟩ : String)))).filter
      (fun w => decide (w ≠ "") && !(stopWords.contains w))))).take 25

/-- The four counters of the timestamp-anomaly detector (lines 129-154). -/
structure TsCounts where
  unparsable : Nat
  future : Nat
  far_past : Nat
  ooo_users : Nat
deriving DecidableEq

/-- `far_future = now + timedelta(days=365)`, an offset-aware instant. -/
def farFuture (ctx : Ctx) : DT := ⟨true, ctx.nowT + 365 * 86400, 0⟩

/-- The walk over one group (lines 137-152): an unparsable timestamp is
counted and skipped; a parsed one is compared with `far_future` (this
comparison raises on an offset-naive instant), tested for `year < 2010`,
and compared with the previous parsed instant. -/
def tsWalkE (ctx : Ctx) : List Msg → Option DT → TsCounts → Bool →
    Except Unit (TsCounts × Bool)
  | [], _, cnt, flag => .ok (cnt, flag)
  | m :: rest, last, cnt, flag =>
    match ctx.parseTs m.timestamp with
    | none => tsWalkE ctx rest last { cnt with unparsable := cnt.unparsable + 1 } flag
    | some dt => do
      let gt ← dtLt (farFuture ctx) dt
      let lt ← (match last with
        | some l => dtLt dt l
        | none => pure false)
      tsWalkE ctx rest (some dt)
        { cnt with
          future := if gt then cnt.future + 1 else cnt.future,
          far_past := if dt.year < 2010 then cnt.far_past + 1 else cnt.far_past }
        (flag || lt)

/-- Lines 129-154 over all groups: the three per-record counters and the
number of out-of-order user groups. -/
def tsAnomaliesE (ctx : Ctx) (groups : List (String × List Msg)) :
    Except Unit TsCounts :=
  groups.foldlM (fun acc g => do
    let r ← tsWalkE ctx g.2 none acc false
    pure (if r.2 then { r.1 with ooo_users := r.1.ooo_users + 1 } else r.1)) ⟨0, 0, 0, 0⟩

/-- `times.sort()` on parsed datetimes: sorting raises a `TypeError` as
soon as offset-naive and offset-aware values are mixed; otherwise every
comparison is by instant. -/
def sortTimesE (ts : List DT) : Except Unit (List Int) :=
  if ∀ a ∈ ts, ∀ b ∈ ts, a.aware = b.aware then
    .ok (sortedTimes (ts.map DT.t))
  else .error ()

/-- One group of the cadence loop (lines 318-340), fallible only in the
sort/subtraction of parsed datetimes. -/
def cadStepE (ctx : Ctx) (acc : List CadEntry) (g : String × List Msg) :
    Except Unit (List CadEntry) :=
  if g.2.length < 8 then .ok acc
  else if (g.2.filterMap (fun m => ctx.parseTs m.timestamp)).length < 8 then .ok acc
  else do
    let ts ← sortTimesE (g.2.filterMap (fun m => ctx.parseTs m.timestamp))
    let gaps := List.zipWith (fun a b => a - b) ts.tail ts
    if gaps = [] then pure acc
    else if decide (10 ≤ meanOf gaps) && decide (meanOf gaps ≤ 86400) && cvOkB gaps then
      pure (acc ++ [(⟨g.1, meanOf gaps, cvSqOf gaps, gaps.length⟩ : CadEntry)])
    else pure acc

/-- The cadence detector over all groups, sorted ascending by `cv`,
capped at 50. -/
def cadenceE (ctx : Ctx) (groups : List (String × List Msg)) :
    Except Unit (List CadEntry) := do
  let entries ← groups.foldlM (cadStepE ctx) []
  pure ((List.insertionSort (fun a b : CadEntry => a.cvSq ≤ b.cvSq) entries).take 50)

def listMinNat : List Nat → Nat
  | [] => 0
  | x :: xs => xs.foldl min x

def listMaxNat : List Nat → Nat
  | [] => 0
  | x :: xs => xs.foldl max x

/-- The report of `analyze` (lines 359-416), flattened: one field per
scalar or capped finding list. -/
structure Report where
  totals_messages : Nat
  totals_users : Nat
  avg_message_length : ℚ
  min_message_length : Nat
  max_message_length : Nat
  multi_name_count : Nat
  multi_name_examples : List (String × List String)
  full_name_collisions_count : Nat
  full_name_collisions_examples : List (String × List String)
  first_name_collisions_top : List (String × Nat)
  names_replacement_count : Nat
  names_replacement_examples : List String
  sample_bad_messages : List BadSample
  ts_unparsable : Nat
  ts_far_future : Nat
  ts_far_past : Nat
  out_of_order_user_count : Nat
  per_user_duplicates_examples : List (String × List (String × Nat))
  cross_user_duplicate_texts : List (String × Nat)
  duplicate_message_id_count : Nat
  duplicate_message_id_examples : List String
  phone_like : List PiiSample
  email_like : List PiiSample
  credit_card_like : List PiiSample
  top_words : List (String × Nat)
  invalid_user_id_count : Nat
  invalid_message_id_count : Nat
  missing_user_id : Nat
  missing_user_name : Nat
  missing_timestamp : Nat
  missing_message : Nat
  shared_phones : List (String × Nat)
  shared_emails : List (String × Nat)
  seat_preference_flips : List String
  same_day_multi_city : List (String × String × List String)
  suspicious_cadence_users : List CadEntry
  script_shift_users : List (String × ℚ × ℚ)
deriving DecidableEq

/-- `analyze` (lines 83-416): every detector over the same corpus and
grouping, assembled into the report.  The two detectors that order-compare
parsed datetimes can raise; everything else is total. -/
def analyzeE (ctx : Ctx) (msgs : List Msg) : Except Unit Report := do
  let tsc ← tsAnomaliesE ctx (group_by_user msgs)
  let cad ← cadenceE ctx (group_by_user msgs)
  pure
    { totals_messages := msgs.length
      totals_users := (group_by_user msgs).length
      avg_message_length := pyRound2
        (((msgs.map (fun m => m.message.length)).sum : ℚ)
          / ((max 1 (msgs.map (fun m => m.message.length)).length : Nat) : ℚ))
      min_message_length := listMinNat (msgs.map (fun m => m.message.length))
      max_message_length := listMaxNat (msgs.map (fun m => m.message.length))
      multi_name_count := (multi_name_users msgs).length
      multi_name_examples := (multi_name_users msgs).take 10
      full_name_collisions_count := (full_name_collisions msgs).length
      full_name_collisions_examples := (full_name_collisions msgs).take 10
      first_name_collisions_top := (first_name_collisions ctx.stripAccents msgs).take 20
      names_replacement_count := (bad_name_examples msgs).length
      names_replacement_examples := (bad_name_examples msgs).take 10
      sample_bad_messages := sample_bad_messages msgs
      ts_unparsable := tsc.unparsable
      ts_far_future := tsc.future
      ts_far_past := tsc.far_past
      out_of_order_user_count := tsc.ooo_users
      per_user_duplicates_examples := (per_user_duplicates msgs).take 10
      cross_user_duplicate_texts := cross_user_duplicate_texts msgs
      duplicate_message_id_count := (dup_ids msgs).length
      duplicate_message_id_examples := duplicate_message_id_examples msgs
      phone_like := phone_like (searchB ctx.findPhones) (searchB ctx.findEmails)
        ctx.findCc msgs
      email_like := email_like (searchB ctx.findPhones) (searchB ctx.findEmails)
        ctx.findCc msgs
      credit_card_like := credit_card_like (searchB ctx.findPhones)
        (searchB ctx.findEmails) ctx.findCc msgs
      top_words := top_words ctx.stripAccents msgs
      invalid_user_id_count := (msgs.filter (fun m => !uuidLike m.user_id)).length
      invalid_message_id_count :=
        (msgs.filter (fun m => !uuidLike (m.id.getD ""))).length
      missing_user_id := msgs.countP (fun m => decide (m.user_id = ""))
      missing_user_name := msgs.countP (fun m => decide (m.user_name = ""))
      missing_timestamp := msgs.countP (fun m => decide (m.timestamp = ""))
      missing_message := msgs.countP (fun m => decide (m.message = ""))
      shared_phones := (shared_phones ctx.findPhones msgs).take 20
      shared_emails := (shared_emails ctx.findEmails msgs).take 20
      seat_preference_flips := (seat_preference_flips msgs).take 50
      same_day_multi_city := (same_day_multi_city ctx msgs).take 50
      suspicious_cadence_users := cad
      script_shift_users := (script_shift_users msgs).take 50 }

/-- C5: the claim (and §7 of the spec) says `analyze` never throws for any
record within the declared shape; the code does throw.  Whenever some
record's timestamp parses to an offset-naive instant — e.g. the in-shape
ISO string `"2020-01-01T00:00:00"`, which `datetime.fromisoformat` accepts
without an offset — the comparison `dt > far_future` at line 146 compares
an offset-naive with an offset-aware datetime and raises `TypeError`, so
`analyze` on a corpus containing such a record is an error, not a report. -/
theorem analyze_throws (ctx : Ctx) (m : Msg) (dt : DT)
    (hp : ctx.parseTs m.timestamp = some dt) (hn : dt.aware = false) :
    analyzeE ctx [m] = .error () := by
  have hg : group_by_user [m] = [(m.user_id, [m])] := by
    simp [group_by_user, groupOf, uniqueKeys, List.insertionSort, List.orderedInsert]
  have hts : tsAnomaliesE ctx [(m.user_id, [m])] = .error () := by
    unfold tsAnomaliesE
    simp [List.foldlM, tsWalkE, hp, dtLt, farFuture, hn, Except.bind]
    rfl
  unfold analyzeE
  rw [hg, hts]
  rfl

/-- A context whose timestamp parse yields an offset-naive instant, as
`datetime.fromisoformat` does on `"2020-01-01T00:00:00"`. -/
def naiveCtx : Ctx :=
  { parseTs := fun _ => some ⟨false, 1577836800, 2020⟩
    nowT := 0
    stripAccents := fun s => s
    findPhones := fun _ => []
    findEmails := fun _ => []
    findCc := fun _ => []
    findDateStrs := fun _ => []
    parseDate := fun _ => none }

theorem analyze_throws_w :
    analyzeE naiveCtx [⟨some "1", "u", "n", "2020-01-01T00:00:00", "hi"⟩]
      = .error () :=
  analyze_throws naiveCtx ⟨some "1", "u", "n", "2020-01-01T00:00:00", "hi"⟩
    ⟨false, 1577836800, 2020⟩ rfl rfl

/-- C6: on the empty corpus `analyze` succeeds and every scalar of the
report is zero and every finding list empty. -/
theorem analyze_empty_corpus (ctx : Ctx) :
    analyzeE ctx [] = Except.ok
      { totals_messages := 0
        totals_users := 0
        avg_message_length := 0
        min_message_length := 0
        max_message_length := 0
        multi_name_count := 0
        multi_name_examples := []
        full_name_collisions_count := 0
        full_name_collisions_examples := []
        first_name_collisions_top := []
        names_replacement_count := 0
        names_replacement_examples := []
        sample_bad_messages := []
        ts_unparsable := 0
        ts_far_future := 0
        ts_far_past := 0
        out_of_order_user_count := 0
        per_user_duplicates_examples := []
        cross_user_duplicate_texts := []
        duplicate_message_id_count := 0
        duplicate_message_id_examples := []
        phone_like := []
        email_like := []
        credit_card_like := []
        top_words := []
        invalid_user_id_count := 0
        invalid_message_id_count := 0
        missing_user_id := 0
        missing_user_name := 0
        missing_timestamp := 0
        missing_message := 0
        shared_phones := []
        shared_emails := []
        seat_preference_flips := []
        same_day_multi_city := []
        suspicious_cadence_users := []
        script_shift_users := [] } := by
  have havg : pyRound2 ((((List.map (fun m : Msg => m.message.length)
      ([] : List Msg)).sum : Nat) : ℚ)
      / ((max 1 (List.map (fun m : Msg => m.message.length)
          ([] : List Msg)).length : Nat) : ℚ)) = 0 := by
    simp only [List.map_nil, List.sum_nil, List.length_nil]
    norm_num [pyRound2, roundHalfEven]
  rw [← havg]
  rfl

end Explore
